import Mathlib

/-!
Verification of the CSV-to-MongoDB migration tool (`nodejs-csv-to-mongodb`).

The development shallowly embeds the algorithmic core of the three migration
scripts (`migrateCategories.ts`, `migrateVendors.ts`, `migrateProducts.ts`):
JavaScript `Map` objects become association lists with insertion-order
semantics, MongoDB collections become association lists keyed by `_id`,
`updateOne`/`bulkWrite` upserts become in-place replace-or-append updates,
thrown exceptions become `Except`, and JavaScript number coercions around
date parsing are modelled by an explicit `int`/`NaN`/`undefined` value type.
Theorems at the end settle the specification claims about the tree builder,
the reference resolver, the date parsers and the batch upsert pipeline.
-/

/-! ## Association-list model of JS `Map` and of MongoDB collections

A JS `Map` keeps keys in insertion order; `set` on an existing key replaces
the value in place, `set` on a fresh key appends.  MongoDB upsert by `_id`
behaves the same way on a collection.  Both are modelled by `mapSet` below.
-/

def mapGet {α : Type} (m : List (String × α)) (k : String) : Option α :=
  match m with
  | [] => none
  | (k', v) :: rest => if k' = k then some v else mapGet rest k

def mapSet {α : Type} (m : List (String × α)) (k : String) (v : α) :
    List (String × α) :=
  match m with
  | [] => [(k, v)]
  | (k', v') :: rest =>
      if k' = k then (k', v) :: rest else (k', v') :: mapSet rest k v

def keysOf {α : Type} (m : List (String × α)) : List String :=
  m.map (fun e => e.1)

theorem keysOf_cons {α : Type} (e : String × α) (m : List (String × α)) :
    keysOf (e :: m) = e.1 :: keysOf m := rfl

theorem mapGet_mapSet_self {α : Type} (m : List (String × α)) (k : String)
    (v : α) : mapGet (mapSet m k v) k = some v := by
  induction m with
  | nil => simp [mapGet, mapSet]
  | cons e rest ih =>
      obtain ⟨k', v'⟩ := e
      by_cases h : k' = k <;> simp [mapGet, mapSet, h, ih]

theorem mapGet_mapSet_ne {α : Type} (m : List (String × α)) {k k' : String}
    (v : α) (h : k' ≠ k) : mapGet (mapSet m k v) k' = mapGet m k' := by
  have hk : ¬ k = k' := fun he => h he.symm
  induction m with
  | nil => simp [mapGet, mapSet, hk]
  | cons e rest ih =>
      obtain ⟨k0, v0⟩ := e
      by_cases h0 : k0 = k
      · subst h0
        simp [mapGet, mapSet, hk]
      · by_cases h1 : k0 = k' <;> simp [mapGet, mapSet, h0, h1, h, ih]

theorem keysOf_mapSet_mem {α : Type} (m : List (String × α)) {k : String}
    (v : α) (h : k ∈ keysOf m) : keysOf (mapSet m k v) = keysOf m := by
  induction m with
  | nil => simp [keysOf] at h
  | cons e rest ih =>
      obtain ⟨k0, v0⟩ := e
      by_cases h0 : k0 = k
      · simp [mapSet, keysOf_cons, h0]
      · have hm : k ∈ keysOf rest := by
          rw [keysOf_cons] at h
          rcases List.mem_cons.1 h with h' | h'
          · exact absurd h'.symm h0
          · exact h'
        simp [mapSet, keysOf_cons, h0, ih hm]

theorem keysOf_mapSet_not_mem {α : Type} (m : List (String × α)) {k : String}
    (v : α) (h : k ∉ keysOf m) : keysOf (mapSet m k v) = keysOf m ++ [k] := by
  induction m with
  | nil => simp [mapSet, keysOf]
  | cons e rest ih =>
      obtain ⟨k0, v0⟩ := e
      rw [keysOf_cons] at h
      have h0 : ¬ k0 = k := fun he => h (by simp [he])
      have h1 : k ∉ keysOf rest := fun hm => h (by simp [hm])
      simp [mapSet, keysOf_cons, h0, ih h1]

theorem mapGet_eq_none_iff {α : Type} (m : List (String × α)) (k : String) :
    mapGet m k = none ↔ k ∉ keysOf m := by
  induction m with
  | nil => simp [mapGet, keysOf]
  | cons e rest ih =>
      obtain ⟨k0, v0⟩ := e
      rw [keysOf_cons]
      by_cases h0 : k0 = k
      · subst h0
        simp [mapGet]
      · have hk : ¬ k = k0 := fun he => h0 he.symm
        simp [mapGet, h0, ih, hk]

theorem mapGet_isSome_of_mem {α : Type} {m : List (String × α)} {k : String}
    (h : k ∈ keysOf m) : ∃ v, mapGet m k = some v := by
  cases hg : mapGet m k with
  | none => exact absurd ((mapGet_eq_none_iff m k).1 hg) (by simp [h])
  | some v => exact ⟨v, rfl⟩

/-! ## `chunkArray` (from `migrateProducts.ts`)

```ts
const chunkArray = <T>(arr: T[], size: number): T[][] => {
  const out: T[][] = [];
  for (let i = 0; i < arr.length; i += size) out.push(arr.slice(i, i + size));
  return out;
};
```
`BATCH_SIZE` is validated to be a positive integer (`checkConfig.ts`), so the
`size = 0` case (on which the JS loop would not terminate) is unreachable and
mapped to `[]`. -/

def chunkArray {α : Type} (l : List α) (size : Nat) : List (List α) :=
  match l, size with
  | [], _ => []
  | _, 0 => []
  | a :: as, Nat.succ n =>
      ((a :: as).take (n + 1)) :: chunkArray ((a :: as).drop (n + 1)) (n + 1)
termination_by l.length
decreasing_by
  simp [List.length_drop]
  omega

theorem chunkArray_nil {α : Type} (b : Nat) : chunkArray ([] : List α) b = [] := by
  cases b <;> simp [chunkArray]

theorem chunkArray_cons {α : Type} (a : α) (as : List α) (n : Nat) :
    chunkArray (a :: as) (n + 1) =
      ((a :: as).take (n + 1)) :: chunkArray ((a :: as).drop (n + 1)) (n + 1) := by
  rw [chunkArray]

theorem chunkArray_ne_nil {α : Type} (a : α) (as : List α) (n : Nat) :
    chunkArray (a :: as) (n + 1) ≠ [] := by
  rw [chunkArray_cons]
  simp

theorem join_chunkArray {α : Type} :
    ∀ (l : List α) (n : Nat), (chunkArray l (n + 1)).flatten = l
  | [], n => by simp [chunkArray_nil]
  | a :: as, n => by
      rw [chunkArray_cons, List.flatten_cons,
        join_chunkArray ((a :: as).drop (n + 1)) n]
      exact List.take_append_drop _ _
termination_by l _ => l.length
decreasing_by
  simp [List.length_drop]
  omega

theorem length_chunkArray {α : Type} :
    ∀ (l : List α) (n : Nat),
      (chunkArray l (n + 1)).length = (l.length + n) / (n + 1)
  | [], n => by
      rw [chunkArray_nil]
      simp [Nat.div_eq_of_lt (Nat.lt_succ_self n)]
  | a :: as, n => by
      rw [chunkArray_cons]
      simp only [List.length_cons]
      rw [length_chunkArray ((a :: as).drop (n + 1)) n]
      simp only [List.length_drop, List.length_cons]
      by_cases h : as.length + 1 ≤ n + 1
      · have h1 : as.length + 1 - (n + 1) = 0 := by omega
        have h2 : n / (n + 1) = 0 := Nat.div_eq_of_lt (Nat.lt_succ_self n)
        have h3 : (as.length + 1 + n) / (n + 1) = 1 := by
          apply Nat.div_eq_of_lt_le <;> omega
        rw [h1, Nat.zero_add, h2, h3]
      · have h1 : as.length + 1 - (n + 1) + n = as.length := by omega
        have h2 : as.length + 1 + n = as.length + (n + 1) := by omega
        rw [h1, h2, Nat.add_div_right _ (Nat.succ_pos n)]
termination_by l _ => l.length
decreasing_by
  simp [List.length_drop]
  omega

theorem chunkArray_sizes {α : Type} :
    ∀ (l : List α) (n : Nat),
      (∀ c ∈ (chunkArray l (n + 1)).dropLast, c.length = n + 1) ∧
      (∀ c ∈ chunkArray l (n + 1), 0 < c.length ∧ c.length ≤ n + 1)
  | [], n => by
      rw [chunkArray_nil]
      simp
  | a :: as, n => by
      rw [chunkArray_cons]
      obtain ⟨ih1, ih2⟩ := chunkArray_sizes ((a :: as).drop (n + 1)) n
      constructor
      · intro c hc
        cases hrest : chunkArray ((a :: as).drop (n + 1)) (n + 1) with
        | nil =>
            rw [hrest] at hc
            simp at hc
        | cons r rs =>
            rw [hrest] at hc
            have hd : ((a :: as).take (n + 1) :: r :: rs).dropLast =
                (a :: as).take (n + 1) :: (r :: rs).dropLast := rfl
            rw [hd] at hc
            rcases List.mem_cons.1 hc with h | h
            · subst h
              have hne : (a :: as).drop (n + 1) ≠ [] := by
                intro hnil
                rw [hnil, chunkArray_nil] at hrest
                exact List.noConfusion hrest
              have hlen : n + 1 < (a :: as).length := by
                by_contra hle
                push_neg at hle
                exact hne (List.drop_eq_nil_of_le hle)
              simp only [List.length_take, List.length_cons] at hlen ⊢
              omega
            · rw [← hrest] at h
              exact ih1 c h
      · intro c hc
        rcases List.mem_cons.1 hc with h | h
        · subst h
          simp only [List.length_take, List.length_cons]
          omega
        · exact ih2 c h
termination_by l _ => l.length
decreasing_by
  simp [List.length_drop]
  omega

/-! ## Category migration (`migrateCategories.ts`)

```ts
const buildCategoryTree = (categories: CategoryRow[]) => {
  const nodeMap = new Map<string, any>();
  categories
    .sort((a, b) => a.CATEGORY_CODE.length - b.CATEGORY_CODE.length)
    .forEach(({ CATEGORY_CODE, CATEGORY_NAME }) => {
      const node = { _id, name, children: nodeMap.get(CATEGORY_CODE)?.children || [] };
      nodeMap.set(CATEGORY_CODE, node);
      if (CATEGORY_CODE.length > 2) {
        const parentCode = CATEGORY_CODE.slice(0, -2);
        const parent = nodeMap.get(parentCode);
        if (parent) parent.children.push(node);
      }
    });
  return Array.from(nodeMap.values()).filter((n) => n._id.length === 2);
};
```

Nodes are mutable shared objects in JS; here a node is identified by its code
(the `_id`), the map stores per-code `name` and the ordered list of child
codes, and the object graph is materialized at the end by resolving child
codes through the final map.  For inputs without duplicate codes (the claims
quantify over code *sets*) this is observationally identical to the mutable
version. -/

structure CategoryRow where
  CATEGORY_CODE : String
  CATEGORY_NAME : String
deriving DecidableEq, Repr

/-- Embeds `/^\d{2,}$/.test(code) && code.length % 2 === 0`. -/
def validateCategoryCode (code : String) : Bool :=
  (code.data.all Char.isDigit && 2 ≤ code.length) && code.length % 2 == 0

/-- JS `code.slice(0, -2)`: the string minus its last two characters. -/
def sliceDropLast2 (s : String) : String := String.mk s.data.dropLast.dropLast

structure NodeData where
  name : String
  children : List String
deriving DecidableEq, Repr

/-- One iteration of the `forEach` body of `buildCategoryTree`. -/
def buildStep (m : List (String × NodeData)) (r : CategoryRow) :
    List (String × NodeData) :=
  let node : NodeData :=
    ⟨r.CATEGORY_NAME, ((mapGet m r.CATEGORY_CODE).map NodeData.children).getD []⟩
  let m1 := mapSet m r.CATEGORY_CODE node
  if 2 < r.CATEGORY_CODE.length then
    let parentCode := sliceDropLast2 r.CATEGORY_CODE
    match mapGet m1 parentCode with
    | some pd => mapSet m1 parentCode ⟨pd.name, pd.children ++ [r.CATEGORY_CODE]⟩
    | none => m1
  else m1

/-- Stable insertion of one row into a list sorted by code length.  Embeds one
step of the JS `sort((a, b) => a.CATEGORY_CODE.length - b.CATEGORY_CODE.length)`
(V8 `Array.prototype.sort` is stable, so equal lengths keep input order). -/
def insertByLen (r : CategoryRow) : List CategoryRow → List CategoryRow
  | [] => [r]
  | x :: xs =>
      if x.CATEGORY_CODE.length < r.CATEGORY_CODE.length then
        x :: insertByLen r xs
      else r :: x :: xs

def sortByLen (l : List CategoryRow) : List CategoryRow := l.foldr insertByLen []

def buildNodeMap (l : List CategoryRow) : List (String × NodeData) :=
  (sortByLen l).foldl buildStep []

inductive CatTree where
  | node (id name : String) (children : List CatTree)

/-- Resolve the object graph rooted at `code` through the finished node map.
`fuel` bounds the depth; `buildCategoryTree` passes enough fuel for every
chain of child codes (each strictly longer than its parent). -/
def materialize (m : List (String × NodeData)) : Nat → String → CatTree
  | 0, code => CatTree.node code "" []
  | fuel + 1, code =>
      match mapGet m code with
      | some d =>
          CatTree.node code d.name (d.children.map (fun c => materialize m fuel c))
      | none => CatTree.node code "" []

/-- Embeds `Array.from(nodeMap.values()).filter((n) => n._id.length === 2)`, with the
attached subtrees resolved. -/
def buildCategoryTree (l : List CategoryRow) : List CatTree :=
  let m := buildNodeMap l
  (m.filter (fun e => e.1.length == 2)).map
    (fun e => materialize m (m.length + 1) e.1)

mutual

def treeHas (c : String) : CatTree → Bool
  | .node i _ cs => i == c || forestHas c cs

def forestHas (c : String) : List CatTree → Bool
  | [] => false
  | t :: ts => treeHas c t || forestHas c ts

end

def rowCodes (l : List CategoryRow) : List String :=
  l.map (fun r => r.CATEGORY_CODE)

/-- The children the finished node map assigns to parent code `p`: the codes
of the records of `S` (in processing order) whose parent code is `p`. -/
def childSpec (S : List CategoryRow) (p : String) : List String :=
  S.filterMap (fun r =>
    if 2 < r.CATEGORY_CODE.length ∧ sliceDropLast2 r.CATEGORY_CODE = p
    then some r.CATEGORY_CODE else none)

abbrev lenLE (a b : CategoryRow) : Prop :=
  a.CATEGORY_CODE.length ≤ b.CATEGORY_CODE.length

theorem insertByLen_perm (r : CategoryRow) (l : List CategoryRow) :
    List.Perm (insertByLen r l) (r :: l) := by
  induction l with
  | nil => simp [insertByLen]
  | cons x xs ih =>
      by_cases h : x.CATEGORY_CODE.length < r.CATEGORY_CODE.length
      · have heq : insertByLen r (x :: xs) = x :: insertByLen r xs := by
          simp [insertByLen, h]
        rw [heq]
        exact (ih.cons x).trans (List.Perm.swap r x xs)
      · have heq : insertByLen r (x :: xs) = r :: x :: xs := by
          simp [insertByLen, h]
        rw [heq]

theorem sortByLen_perm (l : List CategoryRow) :
    List.Perm (sortByLen l) l := by
  induction l with
  | nil => simp [sortByLen]
  | cons x xs ih =>
      have heq : sortByLen (x :: xs) = insertByLen x (sortByLen xs) := rfl
      rw [heq]
      exact (insertByLen_perm x (sortByLen xs)).trans (ih.cons x)

theorem insertByLen_pairwise {r : CategoryRow} {l : List CategoryRow}
    (h : l.Pairwise lenLE) : (insertByLen r l).Pairwise lenLE := by
  induction l with
  | nil => simp [insertByLen, List.pairwise_cons]
  | cons x xs ih =>
      rw [List.pairwise_cons] at h
      obtain ⟨hx, hxs⟩ := h
      by_cases hlt : x.CATEGORY_CODE.length < r.CATEGORY_CODE.length
      · have heq : insertByLen r (x :: xs) = x :: insertByLen r xs := by
          simp [insertByLen, hlt]
        rw [heq, List.pairwise_cons]
        refine ⟨fun b hb => ?_, ih hxs⟩
        rcases List.mem_cons.1 ((insertByLen_perm r xs).mem_iff.1 hb) with h1 | h1
        · subst h1
          exact Nat.le_of_lt hlt
        · exact hx b h1
      · have heq : insertByLen r (x :: xs) = r :: x :: xs := by
          simp [insertByLen, hlt]
        rw [heq, List.pairwise_cons]
        refine ⟨fun b hb => ?_, List.pairwise_cons.2 ⟨hx, hxs⟩⟩
        rcases List.mem_cons.1 hb with h' | h'
        · subst h'
          exact Nat.le_of_not_lt hlt
        · exact Nat.le_trans (Nat.le_of_not_lt hlt) (hx b h')

theorem sortByLen_pairwise (l : List CategoryRow) :
    (sortByLen l).Pairwise lenLE := by
  induction l with
  | nil => simp [sortByLen]
  | cons x xs ih => exact insertByLen_pairwise ih

theorem sliceDropLast2_length (s : String) :
    (sliceDropLast2 s).length = s.length - 2 := by
  show s.data.dropLast.dropLast.length = s.data.length - 2
  rw [List.length_dropLast, List.length_dropLast]
  omega

theorem sliceDropLast2_ne {s : String} (h : 2 < s.length) :
    sliceDropLast2 s ≠ s := by
  intro he
  have := congrArg String.length he
  rw [sliceDropLast2_length] at this
  omega

theorem rowCodes_append (P Q : List CategoryRow) :
    rowCodes (P ++ Q) = rowCodes P ++ rowCodes Q := by
  simp [rowCodes]

theorem childSpec_append (P Q : List CategoryRow) (p : String) :
    childSpec (P ++ Q) p = childSpec P p ++ childSpec Q p := by
  simp [childSpec]

theorem childSpec_eq_nil {P : List CategoryRow} {p : String}
    (h : ∀ a ∈ P, a.CATEGORY_CODE.length ≤ p.length) : childSpec P p = [] := by
  rw [childSpec, List.filterMap_eq_nil_iff]
  intro r hr
  rw [if_neg]
  intro hc
  have h1 := congrArg String.length hc.2
  rw [sliceDropLast2_length] at h1
  have h2 := h r hr
  have h3 := hc.1
  omega

/-- Central invariant of the `forEach` fold in `buildCategoryTree`: over a
duplicate-free, length-sorted record list the key set of the node map is the
processed code set (in processing order), and each node's children list is
exactly the processing-ordered list of codes whose parent code is that node's
code. -/
theorem buildFold_spec :
    ∀ (S : List CategoryRow), (rowCodes S).Nodup → S.Pairwise lenLE →
      keysOf (S.foldl buildStep []) = rowCodes S ∧
      (∀ p d, mapGet (S.foldl buildStep []) p = some d →
        d.children = childSpec S p) := by
  intro S
  induction S using List.reverseRecOn with
  | nil =>
      intro _ _
      refine ⟨rfl, fun p d h => ?_⟩
      simp [mapGet] at h
  | append_singleton P r ih =>
      intro hnd hpw
      rw [rowCodes_append] at hnd
      rw [List.nodup_append] at hnd
      have hndP : (rowCodes P).Nodup := hnd.1
      have hfresh : r.CATEGORY_CODE ∉ rowCodes P := by
        intro hmem
        have := hnd.2.2 hmem
        simp [rowCodes] at this
      have hpwP : P.Pairwise lenLE := (List.pairwise_append.1 hpw).1
      have hle : ∀ a ∈ P, a.CATEGORY_CODE.length ≤ r.CATEGORY_CODE.length := by
        intro a ha
        exact (List.pairwise_append.1 hpw).2.2 a ha r (by simp)
      obtain ⟨ihk, ihc⟩ := ih hndP hpwP
      rw [List.foldl_append]
      simp only [List.foldl_cons, List.foldl_nil]
      set M := P.foldl buildStep [] with hM
      have hgetr : mapGet M r.CATEGORY_CODE = none := by
        rw [mapGet_eq_none_iff, ihk]
        exact hfresh
      have hkeys1 :
          keysOf (mapSet M r.CATEGORY_CODE ⟨r.CATEGORY_NAME, []⟩) =
            rowCodes P ++ [r.CATEGORY_CODE] := by
        rw [keysOf_mapSet_not_mem _ _ (by rw [ihk]; exact hfresh), ihk]
      have hchildnil : childSpec P r.CATEGORY_CODE = [] :=
        childSpec_eq_nil hle
      have hcodes : rowCodes (P ++ [r]) = rowCodes P ++ [r.CATEGORY_CODE] := by
        simp [rowCodes]
      simp only [buildStep, hgetr, Option.map_none', Option.getD_none]
      by_cases h2 : 2 < r.CATEGORY_CODE.length
      · rw [if_pos h2]
        have hne : sliceDropLast2 r.CATEGORY_CODE ≠ r.CATEGORY_CODE :=
          sliceDropLast2_ne h2
        have hget1 :
            mapGet (mapSet M r.CATEGORY_CODE ⟨r.CATEGORY_NAME, []⟩)
              (sliceDropLast2 r.CATEGORY_CODE) =
            mapGet M (sliceDropLast2 r.CATEGORY_CODE) :=
          mapGet_mapSet_ne _ _ hne
        cases hpar : mapGet M (sliceDropLast2 r.CATEGORY_CODE) with
        | none =>
            simp only [hget1, hpar]
            refine ⟨by rw [hkeys1, hcodes], fun p d hget => ?_⟩
            rw [childSpec_append]
            by_cases hp : p = r.CATEGORY_CODE
            · subst hp
              rw [mapGet_mapSet_self] at hget
              have hd := Option.some.inj hget
              rw [← hd, hchildnil]
              have hcond : ¬ (2 < r.CATEGORY_CODE.length ∧
                  sliceDropLast2 r.CATEGORY_CODE = r.CATEGORY_CODE) :=
                fun hc => hne hc.2
              simp [childSpec, hcond]
            · rw [mapGet_mapSet_ne _ _ hp] at hget
              have hpne : sliceDropLast2 r.CATEGORY_CODE ≠ p := by
                intro he
                rw [he] at hpar
                rw [hget] at hpar
                exact Option.noConfusion hpar
              have hcond : ¬ (2 < r.CATEGORY_CODE.length ∧
                  sliceDropLast2 r.CATEGORY_CODE = p) :=
                fun hc => hpne hc.2
              rw [ihc p d hget]
              simp [childSpec, hcond]
        | some pd =>
            simp only [hget1, hpar]
            have hmem1 : sliceDropLast2 r.CATEGORY_CODE ∈
                keysOf (mapSet M r.CATEGORY_CODE ⟨r.CATEGORY_NAME, []⟩) := by
              by_contra hnm
              rw [← mapGet_eq_none_iff] at hnm
              rw [hget1, hpar] at hnm
              exact Option.noConfusion hnm
            constructor
            · rw [keysOf_mapSet_mem _ _ hmem1, hkeys1, hcodes]
            · intro p d hget
              rw [childSpec_append]
              by_cases hppc : p = sliceDropLast2 r.CATEGORY_CODE
              · subst hppc
                rw [mapGet_mapSet_self] at hget
                have hd := Option.some.inj hget
                rw [← hd]
                have hpdc : pd.children =
                    childSpec P (sliceDropLast2 r.CATEGORY_CODE) :=
                  ihc _ pd hpar
                simp [hpdc, childSpec, h2]
              · have hppc2 : p ≠ sliceDropLast2 r.CATEGORY_CODE := hppc
                rw [mapGet_mapSet_ne _ _ hppc2] at hget
                have hcond : ¬ (2 < r.CATEGORY_CODE.length ∧
                    sliceDropLast2 r.CATEGORY_CODE = p) :=
                  fun hc => hppc hc.2.symm
                by_cases hp : p = r.CATEGORY_CODE
                · subst hp
                  rw [mapGet_mapSet_self] at hget
                  have hd := Option.some.inj hget
                  rw [← hd, hchildnil]
                  simp [childSpec, hcond]
                · rw [mapGet_mapSet_ne _ _ hp] at hget
                  rw [ihc p d hget]
                  simp [childSpec, hcond]
      · rw [if_neg h2]
        refine ⟨by rw [hkeys1, hcodes], fun p d hget => ?_⟩
        rw [childSpec_append]
        have hcond : ¬ (2 < r.CATEGORY_CODE.length ∧
            sliceDropLast2 r.CATEGORY_CODE = p) := fun hc => h2 hc.1
        by_cases hp : p = r.CATEGORY_CODE
        · subst hp
          rw [mapGet_mapSet_self] at hget
          have hd := Option.some.inj hget
          rw [← hd, hchildnil]
          simp [childSpec, hcond]
        · rw [mapGet_mapSet_ne _ _ hp] at hget
          rw [ihc p d hget]
          simp [childSpec, hcond]

theorem buildNodeMap_keys (l : List CategoryRow) (h : (rowCodes l).Nodup) :
    keysOf (buildNodeMap l) = rowCodes (sortByLen l) := by
  have hperm : List.Perm (rowCodes (sortByLen l)) (rowCodes l) := by
    unfold rowCodes
    exact (sortByLen_perm l).map (fun r => r.CATEGORY_CODE)
  exact (buildFold_spec (sortByLen l) (hperm.nodup_iff.2 h)
    (sortByLen_pairwise l)).1

theorem buildNodeMap_children (l : List CategoryRow) (h : (rowCodes l).Nodup) :
    ∀ p d, mapGet (buildNodeMap l) p = some d →
      d.children = childSpec (sortByLen l) p := by
  have hperm : List.Perm (rowCodes (sortByLen l)) (rowCodes l) := by
    unfold rowCodes
    exact (sortByLen_perm l).map (fun r => r.CATEGORY_CODE)
  exact (buildFold_spec (sortByLen l) (hperm.nodup_iff.2 h)
    (sortByLen_pairwise l)).2

theorem buildNodeMap_attach (l : List CategoryRow) (h : (rowCodes l).Nodup)
    (r : CategoryRow) (hr : r ∈ l) (hlen : 2 < r.CATEGORY_CODE.length)
    (hp : sliceDropLast2 r.CATEGORY_CODE ∈ rowCodes l) :
    ∃ d, mapGet (buildNodeMap l) (sliceDropLast2 r.CATEGORY_CODE) = some d ∧
      r.CATEGORY_CODE ∈ d.children := by
  have hperm : List.Perm (rowCodes (sortByLen l)) (rowCodes l) := by
    unfold rowCodes
    exact (sortByLen_perm l).map (fun r => r.CATEGORY_CODE)
  have hp' : sliceDropLast2 r.CATEGORY_CODE ∈ keysOf (buildNodeMap l) := by
    rw [buildNodeMap_keys l h]
    exact hperm.mem_iff.2 hp
  obtain ⟨d, hd⟩ := mapGet_isSome_of_mem hp'
  refine ⟨d, hd, ?_⟩
  rw [buildNodeMap_children l h _ d hd]
  rw [childSpec, List.mem_filterMap]
  refine ⟨r, (sortByLen_perm l).mem_iff.2 hr, ?_⟩
  rw [if_pos ⟨hlen, rfl⟩]

theorem buildNodeMap_orphan_not_child (l : List CategoryRow)
    (h : (rowCodes l).Nodup) (c : String)
    (hp : sliceDropLast2 c ∉ rowCodes l) :
    ∀ p d, mapGet (buildNodeMap l) p = some d → c ∉ d.children := by
  intro p d hd hmem
  rw [buildNodeMap_children l h _ d hd] at hmem
  rw [childSpec, List.mem_filterMap] at hmem
  obtain ⟨a, _, ha⟩ := hmem
  by_cases hcond : 2 < a.CATEGORY_CODE.length ∧
      sliceDropLast2 a.CATEGORY_CODE = p
  · rw [if_pos hcond] at ha
    have hac := Option.some.inj ha
    have hkey : p ∈ keysOf (buildNodeMap l) := by
      by_contra hnm
      rw [← mapGet_eq_none_iff] at hnm
      rw [hd] at hnm
      exact Option.noConfusion hnm
    rw [buildNodeMap_keys l h] at hkey
    have hperm : List.Perm (rowCodes (sortByLen l)) (rowCodes l) := by
      unfold rowCodes
      exact (sortByLen_perm l).map (fun r => r.CATEGORY_CODE)
    apply hp
    rw [← hac, hcond.2]
    exact hperm.mem_iff.1 hkey
  · rw [if_neg hcond] at ha
    exact Option.noConfusion ha

theorem forestHas_any (c : String) (l : List CatTree) :
    forestHas c l = l.any (treeHas c) := by
  induction l with
  | nil => rfl
  | cons t ts ih => rw [forestHas, List.any_cons, ih]

/-- Every code occurring in a materialized tree is either the root code or a
member of some children list of the node map. -/
theorem treeHas_materialize (m : List (String × NodeData)) (c : String) :
    ∀ (fuel : Nat) (q : String), treeHas c (materialize m fuel q) = true →
      c = q ∨ ∃ p d, mapGet m p = some d ∧ c ∈ d.children := by
  intro fuel
  induction fuel with
  | zero =>
      intro q h
      rw [materialize, treeHas, forestHas_any] at h
      simp at h
      exact Or.inl h.symm
  | succ n ih =>
      intro q h
      rw [materialize] at h
      cases hq : mapGet m q with
      | none =>
          rw [hq] at h
          rw [treeHas, forestHas_any] at h
          simp at h
          exact Or.inl h.symm
      | some d =>
          rw [hq] at h
          rw [treeHas, forestHas_any] at h
          rcases Bool.or_eq_true_iff.1 h with h1 | h1
          · left
            exact (eq_of_beq h1).symm
          · rw [List.any_eq_true] at h1
            obtain ⟨t, ht, htree⟩ := h1
            rw [List.mem_map] at ht
            obtain ⟨x, hx, hxt⟩ := ht
            rcases ih x (by rw [hxt]; exact htree) with h2 | h2
            · right
              exact ⟨q, d, hq, h2 ▸ hx⟩
            · right
              exact h2

/-- A code that is in no children list and is not of length 2 occurs nowhere
in the output forest. -/
theorem forestHas_buildCategoryTree_eq_false (l : List CategoryRow)
    (h : (rowCodes l).Nodup) (c : String) (hlen : c.length ≠ 2)
    (horph : sliceDropLast2 c ∉ rowCodes l) :
    forestHas c (buildCategoryTree l) = false := by
  rw [forestHas_any]
  by_contra hany
  rw [Bool.not_eq_false, List.any_eq_true] at hany
  obtain ⟨t, ht, htree⟩ := hany
  rw [buildCategoryTree, List.mem_map] at ht
  obtain ⟨e, he, het⟩ := ht
  rw [List.mem_filter] at he
  rcases treeHas_materialize (buildNodeMap l) c _ e.1
      (by rw [het]; exact htree) with h1 | h1
  · apply hlen
    rw [h1]
    exact eq_of_beq he.2
  · obtain ⟨p, d, hd, hmem⟩ := h1
    exact buildNodeMap_orphan_not_child l h c horph p d hd hmem

/-! ## Claim C1: parent attachment and silent orphaning in the tree builder -/

/-- C1.  For every duplicate-free set of valid category records and every
record whose code has length `2k` with `k ≥ 2`: if the parent code (the code
minus its trailing two characters) occurs in the input set, the code is
appended to that parent node's children; if the parent code is absent, the
code appears in no node's children list and nowhere in the output forest.
In particular, for input codes `"01"` and `"010101"` the node `"010101"` is
absent from the output forest. -/
theorem tree_parent_attachment (l : List CategoryRow) (r : CategoryRow)
    (k : Nat) (_hvalid : ∀ x ∈ l, validateCategoryCode x.CATEGORY_CODE = true)
    (hnd : (rowCodes l).Nodup) (hr : r ∈ l)
    (hk : r.CATEGORY_CODE.length = 2 * k) (hk2 : 2 ≤ k) :
    (sliceDropLast2 r.CATEGORY_CODE ∈ rowCodes l →
      ∃ d, mapGet (buildNodeMap l) (sliceDropLast2 r.CATEGORY_CODE) = some d ∧
        r.CATEGORY_CODE ∈ d.children) ∧
    (sliceDropLast2 r.CATEGORY_CODE ∉ rowCodes l →
      (∀ p d, mapGet (buildNodeMap l) p = some d →
        r.CATEGORY_CODE ∉ d.children) ∧
      forestHas r.CATEGORY_CODE (buildCategoryTree l) = false) ∧
    forestHas "010101"
      (buildCategoryTree [⟨"01", "a"⟩, ⟨"010101", "b"⟩]) = false := by
  have hlen : 2 < r.CATEGORY_CODE.length := by omega
  refine ⟨fun hp => buildNodeMap_attach l hnd r hr hlen hp, fun hp => ?_, by decide⟩
  exact ⟨buildNodeMap_orphan_not_child l hnd _ hp,
    forestHas_buildCategoryTree_eq_false l hnd _ (by omega) hp⟩

/-- Witness for C1 at a concrete input: in the record set
`[("01","A"), ("0101","B")]` the node `"0101"` (length `2·2`) is attached to
the children of node `"01"`. -/
theorem tree_parent_attachment_witness :
    ∃ d, mapGet (buildNodeMap [⟨"01", "A"⟩, ⟨"0101", "B"⟩])
        (sliceDropLast2 "0101") = some d ∧ "0101" ∈ d.children :=
  (tree_parent_attachment [⟨"01", "A"⟩, ⟨"0101", "B"⟩] ⟨"0101", "B"⟩ 2
    (by decide) (by decide) (by decide) (by decide) (by decide)).1 (by decide)

/-! ## Claim C8: sibling order in the tree builder -/

/-- C8 (amended).  After the stable sort by code length ascending, each
parent's children list is exactly the processing-ordered (discovery-ordered)
list of input codes whose parent code it is — equal-length siblings keep
their input order, which need not be ascending code order. -/
theorem sibling_order_discovery (l : List CategoryRow)
    (hnd : (rowCodes l).Nodup) :
    (sortByLen l).Pairwise lenLE ∧
    (∀ p d, mapGet (buildNodeMap l) p = some d →
      d.children = childSpec (sortByLen l) p) :=
  ⟨sortByLen_pairwise l, buildNodeMap_children l hnd⟩

/-- Witness for C8 (amended) at a concrete input. -/
theorem sibling_order_discovery_witness :
    (⟨"A", ["0104"]⟩ : NodeData).children =
      childSpec (sortByLen [⟨"01", "A"⟩, ⟨"0104", "B"⟩]) "01" :=
  (sibling_order_discovery [⟨"01", "A"⟩, ⟨"0104", "B"⟩] (by decide)).2 "01"
    ⟨"A", ["0104"]⟩ (by decide)

/-- Value of a digit sequence, `((c1*10)+c2)*10+...`; the JS `Number()`
coercion restricted to decimal-digit strings. -/
def digitsVal (l : List Char) : Nat :=
  l.foldl (fun n c => 10 * n + (c.toNat - 48)) 0

/-- Counterexample to C8 as stated: with input rows `01, 0104, 0102` (codes
`0104` and `0102` of equal length, sharing parent `01`, in that input order)
the children of `01` come out as `["0104", "0102"]`, which is not in
ascending order of the original codes (for equal-length digit codes the
numeric order used here coincides with lexicographic string order). -/
theorem sibling_order_counterexample :
    mapGet (buildNodeMap [⟨"01", "A"⟩, ⟨"0104", "B"⟩, ⟨"0102", "C"⟩]) "01" =
      some ⟨"A", ["0104", "0102"]⟩ ∧
    ¬ List.Sorted (fun a b : String => digitsVal a.data ≤ digitsVal b.data)
        ["0104", "0102"] := by
  refine ⟨by decide, fun h => ?_⟩
  have h1 := List.rel_of_sorted_cons h "0102" (by simp)
  exact absurd h1 (by decide)

/-! ## Vendor migration (`migrateVendors.ts`)

JS arithmetic around `Number()` and destructuring can produce `NaN` and
`undefined`; both compare `false` under `<` and `>`.  `JNum` models exactly
the values flowing through `parseVendorDate`. -/

inductive JNum where
  | int (n : Int)
  | nan
  | undef
deriving DecidableEq, Repr

deriving instance DecidableEq for Except

/-- JS `s.split('/')` on the character list of `s`: `""` splits to `[""]`,
adjacent and edge separators produce empty components. -/
def splitSlash (l : List Char) : List (List Char) :=
  l.foldr
    (fun c acc =>
      if c == '/' then [] :: acc
      else
        match acc with
        | [] => [[c]]
        | g :: gs => (c :: g) :: gs)
    [[]]

/-- Model of the JS `Number()` coercion on the string shapes that occur in
date fields: `""` → `0`, optionally-signed decimal digit strings → the
integer, anything else → `NaN`.  (JS also accepts floats, hex, whitespace
padding and so on; such shapes are mapped to `NaN` here, which is exact for
every string this repository feeds through `Number`.) -/
def jsNumberChars (l : List Char) : JNum :=
  if l = [] then .int 0
  else if l.all Char.isDigit then .int (digitsVal l)
  else
    match l with
    | '-' :: rest =>
        if rest ≠ [] ∧ rest.all Char.isDigit then .int (-(digitsVal rest : Int))
        else .nan
    | _ => .nan

def jsNumber (s : String) : JNum := jsNumberChars s.data

/-- JS `a < n` for an integer literal `n`; `NaN`/`undefined` compare false. -/
def jltI : JNum → Int → Bool
  | .int a, n => a < n
  | _, _ => false

/-- JS `a > n` for an integer literal `n`; `NaN`/`undefined` compare false. -/
def jgtI : JNum → Int → Bool
  | .int a, n => n < a
  | _, _ => false

/-- JS `m - 1` as used in `new Date(y, m - 1, d)`: `undefined - 1` and
`NaN - 1` are `NaN`. -/
def jsub1 : JNum → JNum
  | .int n => .int (n - 1)
  | _ => .nan

/-- The argument triple of `new Date(year, monthIndex, day)`. -/
structure JDate where
  year : JNum
  monthIndex : JNum
  day : JNum
deriving DecidableEq, Repr

/-- A JS `Date` is an Invalid Date when any constructor argument coerces to
`NaN` (in particular for `undefined` arguments). -/
def JDate.isInvalid (t : JDate) : Bool :=
  match t.year, t.monthIndex, t.day with
  | .int _, .int _, .int _ => false
  | _, _, _ => true

/-- Embeds `parseVendorDate` from `migrateVendors.ts`:
```ts
const parseVendorDate = (s: string): Date => {
  const [m, d, y] = s.split('/').map(Number);
  if (m < 1 || m > 12 || d < 1 || d > 31 || y < 2000) {
    throw new Error(`Invalid date: ${s}`);
  }
  return new Date(y, m - 1, d);
};
``` -/
def parseVendorDate (s : String) : Except String JDate :=
  let parts := (splitSlash s.data).map jsNumberChars
  let m := parts.getD 0 .undef
  let d := parts.getD 1 .undef
  let y := parts.getD 2 .undef
  if jltI m 1 || jgtI m 12 || jltI d 1 || jgtI d 31 || jltI y 2000 then
    .error ("Invalid date: " ++ s)
  else .ok ⟨y, jsub1 m, d⟩

structure VendorRow where
  VENDOR_ID : String
  VENDOR_NAME : String
  CREATE_DATE : String
  LAST_MODIFIED_DATE : String
deriving DecidableEq, Repr

/-- The `VendorDoc` fields other than `_id` (the `_id` is the assoc-list
key). -/
structure VendorData where
  name : String
  createdAt : JDate
  updatedAt : JDate
deriving DecidableEq, Repr

structure VendorStats where
  total : Nat
  invalidDates : Nat
  otherErrors : Nat
  examples : List String
deriving DecidableEq, Repr

def initVendorStats : VendorStats := ⟨0, 0, 0, []⟩

/-- The catch branch of the vendor `rows.map`: count, classify by message
(`err.message.includes("Invalid date")`; the only throw site produces
messages starting with `Invalid date`, so a prefix test is exact on all
reachable messages), and record up to five examples. -/
def vendorCatch (st : VendorStats) (v : VendorRow) (msg : String) :
    VendorStats :=
  let st1 := { st with total := st.total + 1 }
  let st2 :=
    if "Invalid date".data.isPrefixOf msg.data then
      { st1 with invalidDates := st1.invalidDates + 1 }
    else { st1 with otherErrors := st1.otherErrors + 1 }
  if st2.examples.length < 5 then
    { st2 with
      examples := st2.examples ++ ["Vendor " ++ v.VENDOR_ID ++ ": " ++ msg] }
  else st2

/-- One element of the `rows.map` in `migrateVendors.ts`: build the upsert
operation (`createdAt` is evaluated before `updatedAt`, as in the object
literal) or fold the thrown error into the statistics and yield nothing. -/
def processVendorRow (st : VendorStats) (v : VendorRow) :
    VendorStats × Option (String × VendorData) :=
  match parseVendorDate v.CREATE_DATE with
  | .error e => (vendorCatch st v e, none)
  | .ok cd =>
      match parseVendorDate v.LAST_MODIFIED_DATE with
      | .error e => (vendorCatch st v e, none)
      | .ok ud => (st, some (v.VENDOR_ID, ⟨v.VENDOR_NAME, cd, ud⟩))

/-- Embeds `maybeOps` followed by the `filter`: thread the statistics through all
rows and collect the successful upsert operations in order. -/
def processVendorRows (st : VendorStats) :
    List VendorRow → VendorStats × List (String × VendorData)
  | [] => (st, [])
  | v :: rest =>
      let r := processVendorRow st v
      let rr := processVendorRows r.1 rest
      (rr.1, r.2.toList ++ rr.2)

/-! ## Product migration (`migrateProducts.ts`) -/

/-- Embeds `id.replace(/^0+/, "")`. -/
def stripZeros (id : String) : String :=
  String.mk (id.data.dropWhile (fun c => c == '0'))

/-- Embeds `/^\d{8}$/.test(s)`. -/
def eightDigits (s : String) : Bool :=
  s.data.length == 8 && s.data.all Char.isDigit

/-- The argument triple of `new Date(y, m, d)` in `parseProductDate`; the
month index may be `-1` (month substring `00`). -/
structure PDate where
  year : Nat
  monthIndex : Int
  day : Nat
deriving DecidableEq, Repr

/-- Embeds `parseProductDate` from `migrateProducts.ts`:
```ts
const parseProductDate = (s: string): Date => {
  if (!/^\d{8}$/.test(s)) throw new Error(`Invalid date format: ${s}`);
  const y = Number(s.slice(0, 4));
  const m = Number(s.slice(4, 6)) - 1;
  const d = Number(s.slice(6, 8));
  return new Date(y, m, d);
};
``` -/
def parseProductDate (s : String) : Except String PDate :=
  if eightDigits s then
    .ok ⟨digitsVal (s.data.take 4),
      (digitsVal ((s.data.drop 4).take 2) : Int) - 1,
      digitsVal ((s.data.drop 6).take 2)⟩
  else .error ("Invalid date format: " ++ s)

/-- A persisted vendor or category reference as read back by
`find().toArray()` and embedded into product documents. -/
structure RefRec where
  _id : String
  name : String
deriving DecidableEq, Repr

/-- Embeds the `vendorMap` / `categoryMap` construction:
`map.set(v._id, v); map.set(stripZeros(v._id), v)` over all records. -/
def buildRefMap (recs : List RefRec) : List (String × RefRec) :=
  recs.foldl (fun m v => mapSet (mapSet m v._id v) (stripZeros v._id) v) []

/-- Embeds `map.get(key) || map.get(stripZeros(key))` (map values are objects and
hence truthy; a missed `get` yields falsy `undefined`). -/
def resolveRef (m : List (String × RefRec)) (key : String) : Option RefRec :=
  match mapGet m key with
  | some v => some v
  | none => mapGet m (stripZeros key)

structure ProductRow where
  SKU : String
  MANUFACTURER_PART_NO : String
  PRODUCT_NAME : String
  VENDOR : String
  DESCRIPTION : String
  ACTIVE_STATUS : String
  DISCONTINUED : String
  CREATED_DATE : String
  LAST_MODIFIED_DATE : String
  COLOR : String
  CATEGORY_CODE : String
deriving DecidableEq, Repr

structure ProductDoc where
  _id : String
  manufacturerPartNumber : Option String
  name : String
  description : String
  color : Option String
  active : Bool
  discontinued : Bool
  createdAt : PDate
  updatedAt : PDate
  vendor : Option RefRec
  category : RefRec
deriving DecidableEq, Repr

/-- Embeds `s || undefined`: a blank optional string becomes absent. -/
def strOpt (s : String) : Option String := if s = "" then none else some s

/-- Embeds `/^yes$/i.test(s)`. -/
def isYes (s : String) : Bool := s.data.map Char.toLower == "yes".data

structure SkipStats where
  skippedRows : Nat
  missingVendor : Nat
  missingCategory : Nat
  missingBoth : Nat
  otherErrors : Nat
  examples : List String
deriving DecidableEq, Repr

def initSkipStats : SkipStats := ⟨0, 0, 0, 0, 0, []⟩

/-- Embeds `if (skipStats.examples.length < 5) skipStats.examples.push(msg)`. -/
def pushExample (st : SkipStats) (msg : String) : SkipStats :=
  if st.examples.length < 5 then { st with examples := st.examples ++ [msg] }
  else st

/-- One iteration of the inner `for (const p of batch)` loop in
`migrateProducts.ts`: resolve the two references, update statistics and the
missing-vendor report rows, and produce the upsert document — unless the row
is dropped (missing category, or a date error thrown while the operation
object is being built; `createdAt` is evaluated before `updatedAt`). -/
def processRow (vm cm : List (String × RefRec)) (st : SkipStats)
    (mr : List ProductRow) (p : ProductRow) :
    SkipStats × List ProductRow × Option ProductDoc :=
  let vendor := resolveRef vm p.VENDOR
  let category := resolveRef cm p.CATEGORY_CODE
  match category with
  | none =>
      let st1 := { st with
        skippedRows := st.skippedRows + 1
        missingCategory := st.missingCategory + 1 }
      let st2 :=
        if vendor.isNone then
          { st1 with missingVendor := st1.missingVendor + 1 }
        else st1
      let st3 := pushExample st2 ("SKU " ++ p.SKU ++ ": " ++
        (if vendor.isNone then "Missing vendor " else "") ++ "Missing category")
      (st3, mr, none)
  | some c =>
      let st1 :=
        if vendor.isNone then
          pushExample { st with missingVendor := st.missingVendor + 1 }
            ("SKU " ++ p.SKU ++ ": Missing vendor")
        else st
      let mr1 :=
        if vendor.isNone then
          mr ++ [{ p with
            VENDOR := if p.VENDOR = "" then "(empty)" else p.VENDOR }]
        else mr
      match parseProductDate p.CREATED_DATE with
      | .error e =>
          (pushExample { st1 with
              skippedRows := st1.skippedRows + 1
              otherErrors := st1.otherErrors + 1 }
            ("SKU " ++ p.SKU ++ ": " ++ e), mr1, none)
      | .ok cd =>
          match parseProductDate p.LAST_MODIFIED_DATE with
          | .error e =>
              (pushExample { st1 with
                  skippedRows := st1.skippedRows + 1
                  otherErrors := st1.otherErrors + 1 }
                ("SKU " ++ p.SKU ++ ": " ++ e), mr1, none)
          | .ok ud =>
              (st1, mr1, some {
                _id := p.SKU,
                manufacturerPartNumber := strOpt p.MANUFACTURER_PART_NO,
                name := p.PRODUCT_NAME,
                description := p.DESCRIPTION,
                color := strOpt p.COLOR,
                active := isYes p.ACTIVE_STATUS,
                discontinued := isYes p.DISCONTINUED,
                createdAt := cd,
                updatedAt := ud,
                vendor := vendor,
                category := c })

/-- The inner loop over one batch: accumulate statistics and missing-vendor
rows, collect the batch's `ops`. -/
def processBatch (vm cm : List (String × RefRec))
    (acc : SkipStats × List ProductRow) (batch : List ProductRow) :
    (SkipStats × List ProductRow) × List ProductDoc :=
  batch.foldl
    (fun b p =>
      let r := processRow vm cm b.1.1 b.1.2 p
      ((r.1, r.2.1), b.2 ++ r.2.2.toList))
    (acc, [])

/-- The `for (const batch of chunkArray(products, batchSize))` loop: the
final statistics, the missing-vendor rows, and the per-batch write sets. -/
def runBatches (vm cm : List (String × RefRec)) (rows : List ProductRow)
    (b : Nat) : (SkipStats × List ProductRow) × List (List ProductDoc) :=
  (chunkArray rows b).foldl
    (fun acc batch =>
      let r := processBatch vm cm acc.1 batch
      (r.1, acc.2 ++ [r.2]))
    ((initSkipStats, []), [])

/-! ## Store model: collections as `_id`-keyed association lists

`updateOne({_id}, {$set}, {upsert: true})` with a `$set` covering every
document field replaces the document if the `_id` exists and inserts it
otherwise — exactly `mapSet`.  A bulk write is the left fold of its
operations (`ordered` only affects error behavior, which is not modelled). -/

def applyOps {α : Type} (s : List (String × α)) (ops : List (String × α)) :
    List (String × α) :=
  ops.foldl (fun t e => mapSet t e.1 e.2) s

/-- The last value an operation list writes for key `k`, if any. -/
def lastWrite {α : Type} : List (String × α) → String → Option α
  | [], _ => none
  | e :: rest, k =>
      match lastWrite rest k with
      | some v => some v
      | none => if e.1 = k then some e.2 else none

theorem applyOps_cons {α : Type} (s : List (String × α)) (e : String × α)
    (ops : List (String × α)) :
    applyOps s (e :: ops) = applyOps (mapSet s e.1 e.2) ops := rfl

theorem mapGet_applyOps {α : Type} (ops : List (String × α)) :
    ∀ (s : List (String × α)) (k : String),
      mapGet (applyOps s ops) k =
        match lastWrite ops k with
        | some v => some v
        | none => mapGet s k := by
  induction ops with
  | nil => intro s k; simp [applyOps, lastWrite]
  | cons e rest ih =>
      intro s k
      rw [applyOps_cons, ih]
      cases hlw : lastWrite rest k with
      | some v => simp [lastWrite, hlw]
      | none =>
          by_cases hk : e.1 = k
          · simp [lastWrite, hlw, hk, hk ▸ mapGet_mapSet_self s e.1 e.2]
          · simp [lastWrite, hlw, hk,
              mapGet_mapSet_ne s e.2 (fun he => hk he.symm)]

theorem mem_keysOf_mapSet {α : Type} (m : List (String × α)) (k k' : String)
    (v : α) : k' ∈ keysOf (mapSet m k v) ↔ k' = k ∨ k' ∈ keysOf m := by
  by_cases h : k ∈ keysOf m
  · rw [keysOf_mapSet_mem _ _ h]
    constructor
    · exact Or.inr
    · rintro (he | he)
      · exact he ▸ h
      · exact he
  · rw [keysOf_mapSet_not_mem _ _ h]
    simp [List.mem_append, or_comm]

theorem nodup_keysOf_mapSet {α : Type} (m : List (String × α)) (k : String)
    (v : α) (h : (keysOf m).Nodup) : (keysOf (mapSet m k v)).Nodup := by
  by_cases hk : k ∈ keysOf m
  · rw [keysOf_mapSet_mem _ _ hk]
    exact h
  · rw [keysOf_mapSet_not_mem _ _ hk]
    apply List.Nodup.append h (List.nodup_singleton k)
    intro a ha hb
    rw [List.mem_singleton] at hb
    exact hk (hb ▸ ha)

theorem nodup_keysOf_applyOps {α : Type} (ops : List (String × α)) :
    ∀ s, (keysOf s).Nodup → (keysOf (applyOps s ops)).Nodup := by
  induction ops with
  | nil => intro s h; exact h
  | cons e rest ih =>
      intro s h
      rw [applyOps_cons]
      exact ih _ (nodup_keysOf_mapSet _ _ _ h)

theorem mem_keysOf_applyOps_of_mem {α : Type} (ops : List (String × α)) :
    ∀ s k, k ∈ keysOf s → k ∈ keysOf (applyOps s ops) := by
  induction ops with
  | nil => intro s k h; exact h
  | cons e rest ih =>
      intro s k h
      rw [applyOps_cons]
      exact ih _ _ ((mem_keysOf_mapSet _ _ _ _).2 (Or.inr h))

theorem opsKeys_mem_keysOf_applyOps {α : Type} (ops : List (String × α)) :
    ∀ s e, e ∈ ops → e.1 ∈ keysOf (applyOps s ops) := by
  induction ops with
  | nil => intro s e h; exact absurd h (List.not_mem_nil e)
  | cons f rest ih =>
      intro s e h
      rw [applyOps_cons]
      rcases List.mem_cons.1 h with h1 | h1
      · subst h1
        exact mem_keysOf_applyOps_of_mem rest _ _
          ((mem_keysOf_mapSet _ _ _ _).2 (Or.inl rfl))
      · exact ih _ e h1

theorem keysOf_applyOps_of_mem {α : Type} (ops : List (String × α)) :
    ∀ s, (∀ e ∈ ops, e.1 ∈ keysOf s) → keysOf (applyOps s ops) = keysOf s := by
  induction ops with
  | nil => intro s _; rfl
  | cons e rest ih =>
      intro s h
      rw [applyOps_cons]
      have h1 : e.1 ∈ keysOf s := h e (by simp)
      rw [ih _ (fun f hf => (mem_keysOf_mapSet _ _ _ _).2
        (Or.inr (h f (by simp [hf]))))]
      exact keysOf_mapSet_mem _ _ h1

theorem assocExt {α : Type} :
    ∀ (s t : List (String × α)), (keysOf s).Nodup → (keysOf t).Nodup →
      keysOf s = keysOf t → (∀ k, mapGet s k = mapGet t k) → s = t
  | [], [], _, _, _, _ => rfl
  | [], f :: t, _, _, hk, _ => by
      rw [keysOf_cons] at hk
      exact absurd hk (by simp [keysOf])
  | e :: s, [], _, _, hk, _ => by
      rw [keysOf_cons] at hk
      exact absurd hk (by simp [keysOf])
  | e :: s, f :: t, hs, ht, hk, hg => by
      obtain ⟨k, v⟩ := e
      obtain ⟨k', v'⟩ := f
      rw [keysOf_cons] at hs ht
      rw [keysOf_cons, keysOf_cons] at hk
      injection hk with hkk1 hkk2
      subst hkk1
      have hv : v = v' := by
        have h1 := hg k
        simp [mapGet] at h1
        exact h1
      subst hv
      have hns : (keysOf s).Nodup := (List.nodup_cons.1 hs).2
      have hnt : (keysOf t).Nodup := (List.nodup_cons.1 ht).2
      have hrest : ∀ k2, mapGet s k2 = mapGet t k2 := by
        intro k2
        by_cases h2 : k2 = k
        · subst h2
          have h3 : mapGet s k2 = none :=
            (mapGet_eq_none_iff s k2).2 (List.nodup_cons.1 hs).1
          have h4 : mapGet t k2 = none := by
            rw [mapGet_eq_none_iff, ← hkk2]
            exact (List.nodup_cons.1 hs).1
          rw [h3, h4]
        · have h1 := hg k2
          have hne : ¬ k = k2 := fun he => h2 he.symm
          simp [mapGet, hne] at h1
          exact h1
      rw [assocExt s t hns hnt hkk2 hrest]

/-- Re-applying the same upsert batch to its own result is a no-op. -/
theorem applyOps_idem {α : Type} (s ops : List (String × α))
    (h : (keysOf s).Nodup) :
    applyOps (applyOps s ops) ops = applyOps s ops := by
  have h1 : (keysOf (applyOps s ops)).Nodup := nodup_keysOf_applyOps ops s h
  apply assocExt _ _ (nodup_keysOf_applyOps ops _ h1) h1
  · exact keysOf_applyOps_of_mem ops _
      (fun e he => opsKeys_mem_keysOf_applyOps ops s e he)
  · intro k
    rw [mapGet_applyOps, mapGet_applyOps]
    cases hlw : lastWrite ops k with
    | some v => simp [hlw]
    | none => simp [hlw]

theorem mapSet_mapSet_same {α : Type} (m : List (String × α)) (k : String)
    (v : α) : mapSet (mapSet m k v) k v = mapSet m k v := by
  induction m with
  | nil => simp [mapSet]
  | cons e rest ih =>
      obtain ⟨k0, v0⟩ := e
      by_cases h : k0 = k <;> simp [mapSet, h, ih]

theorem applyOps_append {α : Type} (s : List (String × α))
    (ops1 ops2 : List (String × α)) :
    applyOps s (ops1 ++ ops2) = applyOps (applyOps s ops1) ops2 := by
  rw [applyOps, applyOps, applyOps, List.foldl_append]

/-! ## Migration drivers and the full pipeline -/

structure Store where
  categories : List (String × String)
  categoryTree : List (String × List CatTree)
  vendors : List (String × VendorData)
  products : List (String × ProductDoc)

/-- MongoDB guarantees `_id` uniqueness within a collection. -/
def StoreWF (st : Store) : Prop :=
  (keysOf st.categories).Nodup ∧ (keysOf st.categoryTree).Nodup ∧
  (keysOf st.vendors).Nodup ∧ (keysOf st.products).Nodup

instance (st : Store) : Decidable (StoreWF st) := by
  unfold StoreWF
  infer_instance

def validCats (rows : List CategoryRow) : List CategoryRow :=
  rows.filter (fun r => validateCategoryCode r.CATEGORY_CODE)

/-- The `categories` bulk write: one `{_id: code, $set: {name}}` upsert per
valid row (computed before the in-place sort inside `buildCategoryTree`). -/
def catOps (rows : List CategoryRow) : List (String × String) :=
  (validCats rows).map (fun r => (r.CATEGORY_CODE, r.CATEGORY_NAME))

/-- Embeds the `migrateCategories.ts` driver core: filter valid rows, abort with no
writes when none are valid (the `No valid categories found` error),
bulk-upsert `{_id, name}` into `categories`, then upsert the singleton
`categoryTree` document built from the valid rows. -/
def migrateCategoriesRun (st : Store) (rows : List CategoryRow) : Store :=
  if (validCats rows).length = 0 then st
  else
    { st with
      categories := applyOps st.categories (catOps rows)
      categoryTree := mapSet st.categoryTree "categoryTree"
        (buildCategoryTree (validCats rows)) }

/-- The vendor upsert operations that survive date parsing. -/
def vendOps (rows : List VendorRow) : List (String × VendorData) :=
  (processVendorRows initVendorStats rows).2

/-- Embeds the `migrateVendors.ts` driver core: abort with no writes when no row
survives (the `No valid vendors to migrate` error), otherwise bulk
upsert. -/
def migrateVendorsRun (st : Store) (rows : List VendorRow) : Store :=
  if (vendOps rows).length = 0 then st
  else { st with vendors := applyOps st.vendors (vendOps rows) }

/-- The key-value pairs of one product write set. -/
def prodKV (ops : List ProductDoc) : List (String × ProductDoc) :=
  ops.map (fun d => (d._id, d))

/-- The `vendorMap` source records: `vendors.find().toArray()` yields the
full documents, of which the map consumers read only `_id` and `name`. -/
def vendorIndexOf (st : Store) : List (String × RefRec) :=
  buildRefMap (st.vendors.map (fun e => ⟨e.1, e.2.name⟩))

/-- The `categoryMap` source records (`{_id, name}` documents). -/
def categoryIndexOf (st : Store) : List (String × RefRec) :=
  buildRefMap (st.categories.map (fun e => ⟨e.1, e.2⟩))

/-- Embeds the `migrateProducts.ts` driver core: abort before any write when either
prerequisite collection is empty (the `Run vendor & category migrations
first` error); otherwise build the two alias lookup maps from the persisted
collections, run the batch loop and submit each batch's write set. -/
def migrateProductsRun (st : Store) (rows : List ProductRow) (b : Nat) :
    Store :=
  if st.vendors.length = 0 ∨ st.categories.length = 0 then st
  else
    { st with
      products := ((runBatches (vendorIndexOf st) (categoryIndexOf st)
          rows b).2).foldl
        (fun ps ops => applyOps ps (prodKV ops)) st.products }

/-- One full migration run: categories, then vendors, then products (the
operational order documented in the README). -/
def runPipeline (st : Store) (cats : List CategoryRow)
    (vends : List VendorRow) (prods : List ProductRow) (b : Nat) : Store :=
  migrateProductsRun (migrateVendorsRun (migrateCategoriesRun st cats) vends)
    prods b

theorem productsFold_eq (sets : List (List ProductDoc)) :
    ∀ s : List (String × ProductDoc),
      sets.foldl (fun ps ops => applyOps ps (prodKV ops)) s =
        applyOps s (sets.map prodKV).flatten := by
  induction sets with
  | nil => intro s; rfl
  | cons a rest ih =>
      intro s
      rw [List.foldl_cons, ih, List.map_cons, List.flatten_cons, applyOps_append]

theorem storeExt {s t : Store} (h1 : s.categories = t.categories)
    (h2 : s.categoryTree = t.categoryTree) (h3 : s.vendors = t.vendors)
    (h4 : s.products = t.products) : s = t := by
  cases s
  cases t
  simp_all

theorem migrateCategoriesRun_vendors (s : Store) (rows : List CategoryRow) :
    (migrateCategoriesRun s rows).vendors = s.vendors := by
  unfold migrateCategoriesRun
  split <;> rfl

theorem migrateCategoriesRun_products (s : Store) (rows : List CategoryRow) :
    (migrateCategoriesRun s rows).products = s.products := by
  unfold migrateCategoriesRun
  split <;> rfl

theorem migrateCategoriesRun_of_nil (s : Store) (rows : List CategoryRow)
    (h : (validCats rows).length = 0) : migrateCategoriesRun s rows = s := by
  unfold migrateCategoriesRun
  rw [if_pos h]

theorem migrateCategoriesRun_categories_of_pos (s : Store)
    (rows : List CategoryRow) (h : ¬ (validCats rows).length = 0) :
    (migrateCategoriesRun s rows).categories =
      applyOps s.categories (catOps rows) := by
  unfold migrateCategoriesRun
  rw [if_neg h]

theorem migrateCategoriesRun_tree_of_pos (s : Store)
    (rows : List CategoryRow) (h : ¬ (validCats rows).length = 0) :
    (migrateCategoriesRun s rows).categoryTree =
      mapSet s.categoryTree "categoryTree"
        (buildCategoryTree (validCats rows)) := by
  unfold migrateCategoriesRun
  rw [if_neg h]

theorem migrateVendorsRun_categories (s : Store) (rows : List VendorRow) :
    (migrateVendorsRun s rows).categories = s.categories := by
  unfold migrateVendorsRun
  split <;> rfl

theorem migrateVendorsRun_categoryTree (s : Store) (rows : List VendorRow) :
    (migrateVendorsRun s rows).categoryTree = s.categoryTree := by
  unfold migrateVendorsRun
  split <;> rfl

theorem migrateVendorsRun_products (s : Store) (rows : List VendorRow) :
    (migrateVendorsRun s rows).products = s.products := by
  unfold migrateVendorsRun
  split <;> rfl

theorem migrateVendorsRun_of_nil (s : Store) (rows : List VendorRow)
    (h : (vendOps rows).length = 0) : migrateVendorsRun s rows = s := by
  unfold migrateVendorsRun
  rw [if_pos h]

theorem migrateVendorsRun_vendors_of_pos (s : Store) (rows : List VendorRow)
    (h : ¬ (vendOps rows).length = 0) :
    (migrateVendorsRun s rows).vendors =
      applyOps s.vendors (vendOps rows) := by
  unfold migrateVendorsRun
  rw [if_neg h]

theorem migrateProductsRun_categories (s : Store) (rows : List ProductRow)
    (b : Nat) : (migrateProductsRun s rows b).categories = s.categories := by
  unfold migrateProductsRun
  split <;> rfl

theorem migrateProductsRun_categoryTree (s : Store) (rows : List ProductRow)
    (b : Nat) :
    (migrateProductsRun s rows b).categoryTree = s.categoryTree := by
  unfold migrateProductsRun
  split <;> rfl

theorem migrateProductsRun_vendors (s : Store) (rows : List ProductRow)
    (b : Nat) : (migrateProductsRun s rows b).vendors = s.vendors := by
  unfold migrateProductsRun
  split <;> rfl

theorem migrateProductsRun_of_cond (s : Store) (rows : List ProductRow)
    (b : Nat) (h : s.vendors.length = 0 ∨ s.categories.length = 0) :
    migrateProductsRun s rows b = s := by
  unfold migrateProductsRun
  rw [if_pos h]

theorem migrateProductsRun_products_of_pos (s : Store)
    (rows : List ProductRow) (b : Nat)
    (h : ¬ (s.vendors.length = 0 ∨ s.categories.length = 0)) :
    (migrateProductsRun s rows b).products =
      applyOps s.products
        (((runBatches (vendorIndexOf s) (categoryIndexOf s) rows b).2).map
          prodKV).flatten := by
  unfold migrateProductsRun
  rw [if_neg h]
  exact productsFold_eq _ _

theorem secondCat_categories (st X : Store) (cats : List CategoryRow)
    (hX : X.categories = (migrateCategoriesRun st cats).categories)
    (hc : (keysOf st.categories).Nodup) :
    (migrateCategoriesRun X cats).categories =
      (migrateCategoriesRun st cats).categories := by
  by_cases h0 : (validCats cats).length = 0
  · rw [migrateCategoriesRun_of_nil X cats h0, hX]
  · rw [migrateCategoriesRun_categories_of_pos X cats h0, hX,
      migrateCategoriesRun_categories_of_pos st cats h0]
    exact applyOps_idem _ _ hc

theorem secondCat_tree (st X : Store) (cats : List CategoryRow)
    (hX : X.categoryTree = (migrateCategoriesRun st cats).categoryTree) :
    (migrateCategoriesRun X cats).categoryTree =
      (migrateCategoriesRun st cats).categoryTree := by
  by_cases h0 : (validCats cats).length = 0
  · rw [migrateCategoriesRun_of_nil X cats h0, hX]
  · rw [migrateCategoriesRun_tree_of_pos X cats h0, hX,
      migrateCategoriesRun_tree_of_pos st cats h0]
    exact mapSet_mapSet_same _ _ _

theorem secondVend_vendors (st X : Store) (vends : List VendorRow)
    (hX : X.vendors = (migrateVendorsRun st vends).vendors)
    (hv : (keysOf st.vendors).Nodup) :
    (migrateVendorsRun X vends).vendors =
      (migrateVendorsRun st vends).vendors := by
  by_cases h0 : (vendOps vends).length = 0
  · rw [migrateVendorsRun_of_nil X vends h0, hX]
  · rw [migrateVendorsRun_vendors_of_pos X vends h0, hX,
      migrateVendorsRun_vendors_of_pos st vends h0]
    exact applyOps_idem _ _ hv

theorem secondProd_products (B X : Store) (prods : List ProductRow) (b : Nat)
    (hXv : X.vendors = B.vendors) (hXc : X.categories = B.categories)
    (hXp : X.products = (migrateProductsRun B prods b).products)
    (hp : (keysOf B.products).Nodup) :
    (migrateProductsRun X prods b).products =
      (migrateProductsRun B prods b).products := by
  by_cases hcond : B.vendors.length = 0 ∨ B.categories.length = 0
  · have hcondX : X.vendors.length = 0 ∨ X.categories.length = 0 := by
      rw [hXv, hXc]
      exact hcond
    rw [migrateProductsRun_of_cond X prods b hcondX]
    exact hXp
  · have hcondX : ¬ (X.vendors.length = 0 ∨ X.categories.length = 0) := by
      rw [hXv, hXc]
      exact hcond
    rw [migrateProductsRun_products_of_pos X prods b hcondX]
    have hvm : vendorIndexOf X = vendorIndexOf B := by
      unfold vendorIndexOf
      rw [hXv]
    have hcm : categoryIndexOf X = categoryIndexOf B := by
      unfold categoryIndexOf
      rw [hXc]
    rw [hvm, hcm, hXp, migrateProductsRun_products_of_pos B prods b hcond]
    exact applyOps_idem _ _ hp

/-- C4.  Running the full pipeline twice on identical input yields identical
persisted documents in every collection: every write is an upsert keyed by
the record's natural key (category code, vendor id, product SKU) with full
field replacement, and no persisted field depends on wall-clock run time, so
the second run changes nothing. -/
theorem pipeline_idempotent (st : Store) (cats : List CategoryRow)
    (vends : List VendorRow) (prods : List ProductRow) (b : Nat)
    (hwf : StoreWF st) :
    runPipeline (runPipeline st cats vends prods b) cats vends prods b =
      runPipeline st cats vends prods b := by
  obtain ⟨hc, htree, hv, hp⟩ := hwf
  unfold runPipeline
  set A := migrateCategoriesRun st cats with hA
  set Bst := migrateVendorsRun A vends with hB
  set D := migrateProductsRun Bst prods b with hD
  set AD := migrateCategoriesRun D cats with hAD
  set BD := migrateVendorsRun AD vends with hBD
  have hAv : A.vendors = st.vendors := migrateCategoriesRun_vendors st cats
  have hAp : A.products = st.products := migrateCategoriesRun_products st cats
  have hBc : Bst.categories = A.categories :=
    migrateVendorsRun_categories A vends
  have hBt : Bst.categoryTree = A.categoryTree :=
    migrateVendorsRun_categoryTree A vends
  have hBp : Bst.products = A.products := migrateVendorsRun_products A vends
  have hDc : D.categories = Bst.categories :=
    migrateProductsRun_categories Bst prods b
  have hDt : D.categoryTree = Bst.categoryTree :=
    migrateProductsRun_categoryTree Bst prods b
  have hDv : D.vendors = Bst.vendors := migrateProductsRun_vendors Bst prods b
  have hADc : AD.categories = A.categories := by
    rw [hAD]
    exact secondCat_categories st D cats (by rw [hDc, hBc]) hc
  have hADt : AD.categoryTree = A.categoryTree := by
    rw [hAD]
    exact secondCat_tree st D cats (by rw [hDt, hBt])
  have hADv : AD.vendors = D.vendors := migrateCategoriesRun_vendors D cats
  have hADp : AD.products = D.products := migrateCategoriesRun_products D cats
  have hBDv : BD.vendors = Bst.vendors := by
    rw [hBD, hB]
    exact secondVend_vendors A AD vends (by rw [hADv, hDv, hB])
      (by rw [hAv]; exact hv)
  have hBDc : BD.categories = Bst.categories := by
    rw [hBD, migrateVendorsRun_categories AD vends, hADc, hBc]
  have hBDp : BD.products = D.products := by
    rw [hBD, migrateVendorsRun_products AD vends, hADp]
  apply storeExt
  · rw [migrateProductsRun_categories BD prods b, hBDc, hDc]
  · rw [migrateProductsRun_categoryTree BD prods b, hBD,
      migrateVendorsRun_categoryTree AD vends, hADt, hDt, hBt]
  · rw [migrateProductsRun_vendors BD prods b, hBDv, hDv]
  · rw [hD]
    exact secondProd_products Bst BD prods b (by rw [hBDv])
      (by rw [hBDc]) (by rw [hBDp, hD]) (by rw [hBp, hAp]; exact hp)

/-! ## Date normalizer claims -/

theorem parseProductDate_of_eightDigits (s : String)
    (h : eightDigits s = true) :
    parseProductDate s = Except.ok ⟨digitsVal (s.data.take 4),
      (digitsVal ((s.data.drop 4).take 2) : Int) - 1,
      digitsVal ((s.data.drop 6).take 2)⟩ := by
  unfold parseProductDate
  rw [if_pos h]

theorem parseProductDate_of_not_eightDigits (s : String)
    (h : eightDigits s = false) :
    parseProductDate s = Except.error ("Invalid date format: " ++ s) := by
  unfold parseProductDate
  rw [if_neg (by simp [h])]

/-- C3 (amended).  The compact product-date parser signals an error exactly
for inputs that are not 8 digits; every 8-digit input is accepted and turned
into the local date built from the year/month/day substrings — there is no
month or day range check and only the single `Invalid date format` signal
exists. -/
theorem product_date_format_only (s : String) :
    (eightDigits s = false →
      parseProductDate s = Except.error ("Invalid date format: " ++ s)) ∧
    (eightDigits s = true →
      parseProductDate s = Except.ok ⟨digitsVal (s.data.take 4),
        (digitsVal ((s.data.drop 4).take 2) : Int) - 1,
        digitsVal ((s.data.drop 6).take 2)⟩) :=
  ⟨parseProductDate_of_not_eightDigits s, parseProductDate_of_eightDigits s⟩

/-- Witness for C3 (amended) at concrete inputs. -/
theorem product_date_format_only_witness :
    parseProductDate "20230101" = Except.ok ⟨digitsVal ("20230101".data.take 4),
      (digitsVal (("20230101".data.drop 4).take 2) : Int) - 1,
      digitsVal (("20230101".data.drop 6).take 2)⟩ ∧
    parseProductDate "2023011" =
      Except.error ("Invalid date format: " ++ "2023011") :=
  ⟨(product_date_format_only "20230101").2 (by decide),
   (product_date_format_only "2023011").1 (by decide)⟩

/-- Counterexample to C3 as stated: `"20231399"` is exactly 8 digits with
month substring `13` (outside 1–12) and day substring `99` (outside 1–31),
yet the parser signals no error and returns the date unchecked: the code has
no month/day range validation and no distinct `InvalidMonth`/`InvalidDay`
signals. -/
theorem product_date_counterexample :
    eightDigits "20231399" = true ∧
    digitsVal (("20231399".data.drop 4).take 2) = 13 ∧
    digitsVal (("20231399".data.drop 6).take 2) = 99 ∧
    parseProductDate "20231399" = Except.ok ⟨2023, 12, 99⟩ := by decide

/-- C7.  For a vendor date string whose three slash-separated components
parse to integers `m`, `d`, `y`: the parser signals `Invalid date` exactly
when `m` is outside 1–12, `d` outside 1–31 or `y < 2000`, and otherwise
returns the local date `new Date(y, m-1, d)`; and the caller treats a date
error as a per-row skip — the failing row contributes no operation, is
counted once, and processing continues with the remaining rows. -/
theorem vendor_date_ranges (s : String) (m d y : Int)
    (hs : (splitSlash s.data).map jsNumberChars =
      [JNum.int m, JNum.int d, JNum.int y]) :
    ((m < 1 ∨ 12 < m ∨ d < 1 ∨ 31 < d ∨ y < 2000 →
        parseVendorDate s = Except.error ("Invalid date: " ++ s)) ∧
      (¬ (m < 1 ∨ 12 < m ∨ d < 1 ∨ 31 < d ∨ y < 2000) →
        parseVendorDate s =
          Except.ok ⟨JNum.int y, JNum.int (m - 1), JNum.int d⟩)) ∧
    (∀ (st : VendorStats) (v : VendorRow) (e : String)
        (rest : List VendorRow),
      parseVendorDate v.CREATE_DATE = Except.error e →
      processVendorRows st (v :: rest) =
        processVendorRows (vendorCatch st v e) rest) := by
  refine ⟨⟨fun hcond => ?_, fun hcond => ?_⟩, fun st v e rest he => ?_⟩
  · unfold parseVendorDate
    rw [hs]
    simp only [List.getD_cons_zero, List.getD_cons_succ]
    rw [if_pos]
    simp only [jltI, jgtI, Bool.or_eq_true, decide_eq_true_eq]
    tauto
  · unfold parseVendorDate
    rw [hs]
    simp only [List.getD_cons_zero, List.getD_cons_succ]
    rw [if_neg]
    · simp [jsub1]
    · simp only [jltI, jgtI, Bool.or_eq_true, decide_eq_true_eq]
      tauto
  · simp [processVendorRows, processVendorRow, he]

/-- Witness for C7 at concrete inputs: `2/3/2015` parses, `0/1/2020` is
rejected and skipped by the caller while processing continues. -/
theorem vendor_date_ranges_witness :
    parseVendorDate "2/3/2015" =
      Except.ok ⟨JNum.int 2015, JNum.int (2 - 1), JNum.int 3⟩ ∧
    processVendorRows initVendorStats
        [⟨"7", "V", "0/1/2020", "1/1/2020"⟩, ⟨"8", "W", "1/2/2015", "1/3/2015"⟩] =
      processVendorRows
        (vendorCatch initVendorStats ⟨"7", "V", "0/1/2020", "1/1/2020"⟩
          ("Invalid date: " ++ "0/1/2020"))
        [⟨"8", "W", "1/2/2015", "1/3/2015"⟩] :=
  ⟨((vendor_date_ranges "2/3/2015" 2 3 2015 (by decide)).1).2 (by decide),
   (vendor_date_ranges "2/3/2015" 2 3 2015 (by decide)).2 initVendorStats
     ⟨"7", "V", "0/1/2020", "1/1/2020"⟩ ("Invalid date: " ++ "0/1/2020")
     [⟨"8", "W", "1/2/2015", "1/3/2015"⟩] (by decide)⟩

/-- C10.  There exists an input whose slash components do not parse as
numbers — `"abc"` — for which the vendor date parser raises no error (every
`NaN`/`undefined` comparison is false) and returns a non-calendar Invalid
Date value; a vendor row carrying such dates is persisted, not skipped or
counted. -/
theorem vendor_date_invalid_passthrough :
    parseVendorDate "abc" =
      Except.ok ⟨JNum.undef, JNum.nan, JNum.undef⟩ ∧
    JDate.isInvalid ⟨JNum.undef, JNum.nan, JNum.undef⟩ = true ∧
    processVendorRows initVendorStats [⟨"34", "M", "abc", "abc"⟩] =
      (initVendorStats,
        [("34", ⟨"M", ⟨JNum.undef, JNum.nan, JNum.undef⟩,
          ⟨JNum.undef, JNum.nan, JNum.undef⟩⟩)]) := by
  refine ⟨by decide, by decide, by decide⟩

/-! ## Reference-resolution claims on the product row loop -/

@[simp] theorem pushExample_skippedRows (st : SkipStats) (msg : String) :
    (pushExample st msg).skippedRows = st.skippedRows := by
  unfold pushExample
  split <;> rfl

@[simp] theorem pushExample_missingVendor (st : SkipStats) (msg : String) :
    (pushExample st msg).missingVendor = st.missingVendor := by
  unfold pushExample
  split <;> rfl

@[simp] theorem pushExample_missingCategory (st : SkipStats) (msg : String) :
    (pushExample st msg).missingCategory = st.missingCategory := by
  unfold pushExample
  split <;> rfl

@[simp] theorem pushExample_missingBoth (st : SkipStats) (msg : String) :
    (pushExample st msg).missingBoth = st.missingBoth := by
  unfold pushExample
  split <;> rfl

@[simp] theorem pushExample_otherErrors (st : SkipStats) (msg : String) :
    (pushExample st msg).otherErrors = st.otherErrors := by
  unfold pushExample
  split <;> rfl

theorem pushExample_examples (st : SkipStats) (msg : String) :
    (pushExample st msg).examples =
      if st.examples.length < 5 then st.examples ++ [msg]
      else st.examples := by
  unfold pushExample
  split <;> rfl

/-- C2 (amended).  Per product row: with a resolvable category, an
unresolvable vendor and well-formed (8-digit) date fields, the row is
persisted with `vendor: null`, counted as a vendor-miss and not as dropped;
with a resolvable category but a malformed date field the row is dropped and
counted (`skippedRows`/`otherErrors`) — the date error, not resolution,
decides persistence; with an unresolvable category the row is never
persisted, is counted as a category-miss (plus a vendor-miss exactly when
the vendor is also absent) and, while fewer than five examples are recorded,
its SKU is appended to the example list. -/
theorem product_row_resolution (vm cm : List (String × RefRec))
    (st : SkipStats) (mr : List ProductRow) (p : ProductRow) :
    (∀ c, resolveRef cm p.CATEGORY_CODE = some c →
      resolveRef vm p.VENDOR = none →
      eightDigits p.CREATED_DATE = true →
      eightDigits p.LAST_MODIFIED_DATE = true →
      (∃ doc, (processRow vm cm st mr p).2.2 = some doc ∧
        doc.vendor = none ∧ doc.category = c) ∧
      (processRow vm cm st mr p).1.missingVendor = st.missingVendor + 1 ∧
      (processRow vm cm st mr p).1.skippedRows = st.skippedRows) ∧
    (∀ c, resolveRef cm p.CATEGORY_CODE = some c →
      (eightDigits p.CREATED_DATE = false ∨
        eightDigits p.LAST_MODIFIED_DATE = false) →
      (processRow vm cm st mr p).2.2 = none ∧
      (processRow vm cm st mr p).1.skippedRows = st.skippedRows + 1 ∧
      (processRow vm cm st mr p).1.otherErrors = st.otherErrors + 1) ∧
    (resolveRef cm p.CATEGORY_CODE = none →
      (processRow vm cm st mr p).2.2 = none ∧
      (processRow vm cm st mr p).1.missingCategory = st.missingCategory + 1 ∧
      (processRow vm cm st mr p).1.skippedRows = st.skippedRows + 1 ∧
      (resolveRef vm p.VENDOR = none →
        (processRow vm cm st mr p).1.missingVendor = st.missingVendor + 1) ∧
      (∀ v, resolveRef vm p.VENDOR = some v →
        (processRow vm cm st mr p).1.missingVendor = st.missingVendor) ∧
      (st.examples.length < 5 →
        (processRow vm cm st mr p).1.examples =
          st.examples ++ ["SKU " ++ p.SKU ++ ": " ++
            (if (resolveRef vm p.VENDOR).isNone then "Missing vendor "
             else "") ++ "Missing category"])) := by
  refine ⟨fun c hc hv hd1 hd2 => ?_, fun c hc hd => ?_, fun hc => ?_⟩
  · have h1 := parseProductDate_of_eightDigits _ hd1
    have h2 := parseProductDate_of_eightDigits _ hd2
    simp only [processRow, hc, hv, h1, h2, Option.isNone_none, if_true]
    refine ⟨⟨_, rfl, rfl, rfl⟩, by simp, by simp⟩
  · by_cases hd1 : eightDigits p.CREATED_DATE = true
    · have hd2 : eightDigits p.LAST_MODIFIED_DATE = false := by
        rcases hd with h | h
        · rw [hd1] at h
          exact Bool.noConfusion h
        · exact h
      have h1 := parseProductDate_of_eightDigits _ hd1
      have h2 := parseProductDate_of_not_eightDigits _ hd2
      cases hveq : resolveRef vm p.VENDOR with
      | none =>
          simp only [processRow, hc, hveq, h1, h2, Option.isNone_none,
            if_true]
          refine ⟨by simp, by simp, by simp⟩
      | some v =>
          simp only [processRow, hc, hveq, h1, h2, Option.isNone_some,
            Bool.false_eq_true, if_false]
          refine ⟨by simp, by simp, by simp⟩
    · have hd1' : eightDigits p.CREATED_DATE = false := by
        cases hb : eightDigits p.CREATED_DATE
        · rfl
        · exact absurd hb hd1
      have h1 := parseProductDate_of_not_eightDigits _ hd1'
      cases hveq : resolveRef vm p.VENDOR with
      | none =>
          simp only [processRow, hc, hveq, h1, Option.isNone_none, if_true]
          refine ⟨by simp, by simp, by simp⟩
      | some v =>
          simp only [processRow, hc, hveq, h1, Option.isNone_some,
            Bool.false_eq_true, if_false]
          refine ⟨by simp, by simp, by simp⟩
  · cases hveq : resolveRef vm p.VENDOR with
    | none =>
        simp only [processRow, hc, hveq, Option.isNone_none, if_true]
        refine ⟨by simp, by simp, by simp, fun _ => by simp, ?_, ?_⟩
        · intro v hvs
          exact Option.noConfusion hvs
        · intro hlt
          rw [pushExample_examples]
          simp [hlt]
    | some v =>
        simp only [processRow, hc, hveq, Option.isNone_some,
          Bool.false_eq_true, if_false]
        refine ⟨by simp, by simp, by simp, ?_, ?_, ?_⟩
        · intro hn
          exact Option.noConfusion hn
        · intro w hw
          simp
        · intro hlt
          rw [pushExample_examples]
          simp [hlt]

/-- Witness for C2 (amended) at a concrete input: category `01` resolves,
vendor `V9` does not, dates are well-formed — the row is persisted with a
null vendor, counted as a vendor-miss and not as dropped. -/
theorem product_row_resolution_witness :
    (∃ doc, (processRow (buildRefMap []) (buildRefMap [⟨"01", "Cat"⟩])
        initSkipStats []
        ⟨"S1", "", "P", "V9", "D", "Yes", "No", "20230101", "20230102", "",
          "01"⟩).2.2 = some doc ∧
      doc.vendor = none ∧ doc.category = ⟨"01", "Cat"⟩) ∧
    (processRow (buildRefMap []) (buildRefMap [⟨"01", "Cat"⟩]) initSkipStats
      [] ⟨"S1", "", "P", "V9", "D", "Yes", "No", "20230101", "20230102", "",
        "01"⟩).1.missingVendor = initSkipStats.missingVendor + 1 ∧
    (processRow (buildRefMap []) (buildRefMap [⟨"01", "Cat"⟩]) initSkipStats
      [] ⟨"S1", "", "P", "V9", "D", "Yes", "No", "20230101", "20230102", "",
        "01"⟩).1.skippedRows = initSkipStats.skippedRows :=
  (product_row_resolution (buildRefMap []) (buildRefMap [⟨"01", "Cat"⟩])
    initSkipStats []
    ⟨"S1", "", "P", "V9", "D", "Yes", "No", "20230101", "20230102", "",
      "01"⟩).1 ⟨"01", "Cat"⟩ (by decide) (by decide) (by decide) (by decide)

/-- Counterexample to C2 as stated: row `S1` has a resolvable category `01`
and an unresolvable vendor `V9`, yet it is not persisted — its
`CREATED_DATE` `"bad"` throws while the `$set` payload is built, so the row
is dropped and counted as skipped, contradicting "the row is persisted ...
counted as a vendor-miss but not as dropped". -/
theorem product_row_resolution_counterexample :
    resolveRef (buildRefMap [⟨"01", "Cat"⟩]) "01" = some ⟨"01", "Cat"⟩ ∧
    resolveRef (buildRefMap []) "V9" = none ∧
    (processRow (buildRefMap []) (buildRefMap [⟨"01", "Cat"⟩]) initSkipStats
      [] ⟨"S1", "", "P", "V9", "D", "Yes", "No", "bad", "20230101", "",
        "01"⟩).2.2 = none ∧
    (processRow (buildRefMap []) (buildRefMap [⟨"01", "Cat"⟩]) initSkipStats
      [] ⟨"S1", "", "P", "V9", "D", "Yes", "No", "bad", "20230101", "",
        "01"⟩).1.skippedRows = initSkipStats.skippedRows + 1 := by
  refine ⟨by decide, by decide, by decide, by decide⟩

/-! ## Claim C9: the dead `missingBoth` counter -/

theorem processRow_missingBoth (vm cm : List (String × RefRec))
    (st : SkipStats) (mr : List ProductRow) (p : ProductRow) :
    (processRow vm cm st mr p).1.missingBoth = st.missingBoth := by
  simp only [processRow]
  repeat' split
  all_goals simp

theorem processBatch_fold_missingBoth (vm cm : List (String × RefRec))
    (batch : List ProductRow) :
    ∀ acc : (SkipStats × List ProductRow) × List ProductDoc,
      ((batch.foldl (fun b p =>
          let r := processRow vm cm b.1.1 b.1.2 p
          ((r.1, r.2.1), b.2 ++ r.2.2.toList)) acc).1.1).missingBoth =
        acc.1.1.missingBoth := by
  induction batch with
  | nil => intro acc; rfl
  | cons p rest ih =>
      intro acc
      rw [List.foldl_cons, ih]
      exact processRow_missingBoth vm cm acc.1.1 acc.1.2 p

theorem processBatch_missingBoth (vm cm : List (String × RefRec))
    (acc : SkipStats × List ProductRow) (batch : List ProductRow) :
    (processBatch vm cm acc batch).1.1.missingBoth = acc.1.missingBoth := by
  unfold processBatch
  exact processBatch_fold_missingBoth vm cm batch (acc, [])

theorem runBatches_fold_missingBoth (vm cm : List (String × RefRec))
    (chunks : List (List ProductRow)) :
    ∀ acc : (SkipStats × List ProductRow) × List (List ProductDoc),
      ((chunks.foldl (fun acc batch =>
          let r := processBatch vm cm acc.1 batch
          (r.1, acc.2 ++ [r.2])) acc).1.1).missingBoth =
        acc.1.1.missingBoth := by
  induction chunks with
  | nil => intro acc; rfl
  | cons c rest ih =>
      intro acc
      rw [List.foldl_cons, ih]
      exact processBatch_missingBoth vm cm acc.1 c

/-- C9.  No code path increments `missingBoth`: for every lookup-map pair,
row list and batch size, the run ends with `missingBoth = 0` — rows missing
both references are counted into `missingCategory` and `missingVendor` (and
`skippedRows`) instead. -/
theorem missingBoth_never_incremented (vm cm : List (String × RefRec))
    (rows : List ProductRow) (bsz : Nat) :
    (runBatches vm cm rows bsz).1.1.missingBoth = 0 := by
  unfold runBatches
  rw [runBatches_fold_missingBoth]
  rfl

/-! ## Claim C6: alias-symmetric reference resolution -/

/-- The last record (in `forEach` order) whose literal or zero-stripped id
writes map key `k`. -/
def lastTouch : List RefRec → String → Option RefRec
  | [], _ => none
  | w :: rest, k =>
      match lastTouch rest k with
      | some v => some v
      | none =>
          if w._id = k ∨ stripZeros w._id = k then some w else none

theorem mapGet_buildRefMap_fold (recs : List RefRec) :
    ∀ (m0 : List (String × RefRec)) (k : String),
      mapGet (recs.foldl
          (fun m v => mapSet (mapSet m v._id v) (stripZeros v._id) v) m0) k =
        match lastTouch recs k with
        | some w => some w
        | none => mapGet m0 k := by
  induction recs with
  | nil => intro m0 k; simp [lastTouch]
  | cons w rest ih =>
      intro m0 k
      rw [List.foldl_cons, ih]
      cases hlt : lastTouch rest k with
      | some v => simp [lastTouch, hlt]
      | none =>
          simp only [lastTouch, hlt]
          by_cases h1 : stripZeros w._id = k
          · subst h1
            rw [mapGet_mapSet_self]
            simp
          · rw [mapGet_mapSet_ne _ _ (fun he => h1 he.symm)]
            by_cases h2 : w._id = k
            · subst h2
              rw [mapGet_mapSet_self]
              simp
            · rw [mapGet_mapSet_ne _ _ (fun he => h2 he.symm)]
              rw [if_neg (by tauto)]

theorem mapGet_buildRefMap (recs : List RefRec) (k : String) :
    mapGet (buildRefMap recs) k =
      match lastTouch recs k with
      | some w => some w
      | none => none := by
  unfold buildRefMap
  rw [mapGet_buildRefMap_fold]
  cases lastTouch recs k <;> simp [mapGet]

theorem lastTouch_some_mem {recs : List RefRec} {k : String} {u : RefRec}
    (h : lastTouch recs k = some u) :
    u ∈ recs ∧ (u._id = k ∨ stripZeros u._id = k) := by
  induction recs with
  | nil => simp [lastTouch] at h
  | cons w rest ih =>
      rw [lastTouch] at h
      cases hlt : lastTouch rest k with
      | some v =>
          rw [hlt] at h
          have hvu : v = u := by simpa using h
          subst hvu
          obtain ⟨h1, h2⟩ := ih hlt
          exact ⟨List.mem_cons.2 (Or.inr h1), h2⟩
      | none =>
          rw [hlt] at h
          by_cases hw : w._id = k ∨ stripZeros w._id = k
          · rw [if_pos hw] at h
            have hvu : w = u := by simpa using h
            subst hvu
            exact ⟨List.mem_cons.2 (Or.inl rfl), hw⟩
          · rw [if_neg hw] at h
            exact Option.noConfusion h

theorem lastTouch_none_not_touch {recs : List RefRec} {k : String}
    (h : lastTouch recs k = none) :
    ∀ u ∈ recs, ¬ (u._id = k ∨ stripZeros u._id = k) := by
  induction recs with
  | nil =>
      intro u hu
      cases hu
  | cons w rest ih =>
      rw [lastTouch] at h
      cases hlt : lastTouch rest k with
      | some v =>
          rw [hlt] at h
          exact Option.noConfusion h
      | none =>
          rw [hlt] at h
          intro u hu
          rcases List.mem_cons.1 hu with h2 | h2
          · subst h2
            intro ht
            rw [if_pos ht] at h
            exact Option.noConfusion h
          · exact ih hlt u h2

theorem lastTouch_eq_some {recs : List RefRec} {k : String} {v : RefRec}
    (hv : v ∈ recs) (hvt : v._id = k ∨ stripZeros v._id = k)
    (huniq : ∀ w ∈ recs, (w._id = k ∨ stripZeros w._id = k) → w = v) :
    lastTouch recs k = some v := by
  induction recs with
  | nil => cases hv
  | cons w rest ih =>
      rw [lastTouch]
      cases hlt : lastTouch rest k with
      | some u =>
          obtain ⟨hm, ht⟩ := lastTouch_some_mem hlt
          rw [huniq u (List.mem_cons.2 (Or.inr hm)) ht]
      | none =>
          rcases List.mem_cons.1 hv with h | h
          · subst h
            rw [if_pos hvt]
          · exact absurd hvt (lastTouch_none_not_touch hlt v h)

theorem dropWhile_zero_head (l : List Char) :
    ∀ (c : Char) (t : List Char),
      l.dropWhile (fun x => x == '0') = c :: t → (c == '0') = false := by
  induction l with
  | nil =>
      intro c t h
      simp [List.dropWhile] at h
  | cons a as ih =>
      intro c t h
      rw [List.dropWhile_cons] at h
      by_cases ha : (a == '0') = true
      · rw [if_pos ha] at h
        exact ih c t h
      · rw [if_neg ha] at h
        cases h
        simpa using ha

theorem stripZeros_ne_034 (w : String) : stripZeros w ≠ "034" := by
  intro he
  have hd : (stripZeros w).data = '0' :: ['3', '4'] := by
    rw [he]
  have h0 : (('0' : Char) == '0') = false :=
    dropWhile_zero_head w.data '0' ['3', '4'] hd
  simp at h0

/-- C6 (amended).  An index built from a record set containing id `"034"`
always resolves the literal query `"034"` to that record (collection ids are
unique, and no zero-stripped alias can equal a string starting with `0`);
the zero-stripped query `"34"` also resolves to that record provided no
other record claims the key `"34"` (by literal id `"34"` or by an id that
strips to `"34"`, e.g. `"0034"`) — a later colliding record overwrites the
alias. -/
theorem alias_resolution (recs : List RefRec) (v : RefRec)
    (hv : v ∈ recs) (hid : v._id = "034")
    (hnd : (recs.map (fun w => w._id)).Nodup)
    (hno : ∀ w ∈ recs, w ≠ v → w._id ≠ "34" ∧ stripZeros w._id ≠ "34") :
    resolveRef (buildRefMap recs) "034" = some v ∧
    resolveRef (buildRefMap recs) "34" = some v := by
  have hinj := List.inj_on_of_nodup_map hnd
  have hstrip : stripZeros v._id = "34" := by
    rw [hid]
    decide
  have h034 : mapGet (buildRefMap recs) "034" = some v := by
    rw [mapGet_buildRefMap, lastTouch_eq_some hv (Or.inl hid)]
    intro w hw hwt
    rcases hwt with h1 | h1
    · exact hinj hw hv (h1.trans hid.symm)
    · exact absurd h1 (stripZeros_ne_034 w._id)
  have h34 : mapGet (buildRefMap recs) "34" = some v := by
    rw [mapGet_buildRefMap, lastTouch_eq_some hv (Or.inr hstrip)]
    intro w hw hwt
    by_contra hne
    obtain ⟨hw1, hw2⟩ := hno w hw hne
    rcases hwt with h1 | h1
    · exact hw1 h1
    · exact hw2 h1
  constructor
  · unfold resolveRef
    rw [h034]
  · unfold resolveRef
    rw [h34]

/-- Witness for C6 (amended): the singleton index from id `"034"` resolves
both queries to that record. -/
theorem alias_resolution_witness :
    resolveRef (buildRefMap [⟨"034", "A"⟩]) "034" = some ⟨"034", "A"⟩ ∧
    resolveRef (buildRefMap [⟨"034", "A"⟩]) "34" = some ⟨"034", "A"⟩ :=
  alias_resolution [⟨"034", "A"⟩] ⟨"034", "A"⟩ (by decide) (by decide)
    (by decide) (by decide)

/-- Counterexample to C6 as stated: with records `{_id:"034"}` and
`{_id:"0034"}` (both contain `"034"`-record, distinct ids), the later
`"0034"` record overwrites the shared zero-stripped alias `"34"`, so the
lookup for `"34"` returns the `"0034"` record instead of the `"034"` one. -/
theorem alias_resolution_counterexample :
    (⟨"034", "A"⟩ : RefRec) ∈ [(⟨"034", "A"⟩ : RefRec), ⟨"0034", "B"⟩] ∧
    resolveRef (buildRefMap [⟨"034", "A"⟩, ⟨"0034", "B"⟩]) "34" =
      some ⟨"0034", "B"⟩ ∧
    (⟨"0034", "B"⟩ : RefRec) ≠ ⟨"034", "A"⟩ := by
  refine ⟨by decide, by decide, by decide⟩

/-! ## Claim C5: batch partitioning and the 2-over-5 scenario -/

def exVm5 : List (String × RefRec) := buildRefMap [⟨"10", "Vendor Ten"⟩]

def exCm5 : List (String × RefRec) := buildRefMap [⟨"01", "Dinnerware"⟩]

def exRow5 (sku : String) : ProductRow :=
  ⟨sku, "M1", "Prod", "10", "Desc", "Yes", "No", "20230101", "20230102", "",
    "01"⟩

def exRows5 : List ProductRow :=
  [exRow5 "S1", exRow5 "S2", exRow5 "S3", exRow5 "S4", exRow5 "S5"]

/-- C5.  For every row list and positive batch size the pipeline partitions
the list into `ceil(n/b)` consecutive chunks whose concatenation is the
original list, each of size `b` except a possibly smaller (but non-empty)
final chunk; in particular batch size 2 over 5 resolvable rows produces 3
submitted write sets of sizes 2, 2, 1, all 5 rows are persisted and the
skip statistics stay empty. -/
theorem batch_partition {α : Type} (l : List α) (bsz : Nat) (hb : 0 < bsz) :
    ((chunkArray l bsz).flatten = l ∧
      (chunkArray l bsz).length = (l.length + bsz - 1) / bsz ∧
      (∀ c ∈ (chunkArray l bsz).dropLast, c.length = bsz) ∧
      (∀ c ∈ chunkArray l bsz, 0 < c.length ∧ c.length ≤ bsz)) ∧
    ((runBatches exVm5 exCm5 exRows5 2).2.map List.length = [2, 2, 1] ∧
      (runBatches exVm5 exCm5 exRows5 2).1.1 = initSkipStats ∧
      keysOf (applyOps []
        (((runBatches exVm5 exCm5 exRows5 2).2).map prodKV).flatten) =
        ["S1", "S2", "S3", "S4", "S5"]) := by
  obtain ⟨n, rfl⟩ : ∃ n, bsz = n + 1 := ⟨bsz - 1, by omega⟩
  have hchunk : chunkArray exRows5 2 =
      [[exRow5 "S1", exRow5 "S2"], [exRow5 "S3", exRow5 "S4"],
        [exRow5 "S5"]] := by
    simp [chunkArray, exRows5]
  constructor
  · refine ⟨join_chunkArray l n, ?_, (chunkArray_sizes l n).1,
      (chunkArray_sizes l n).2⟩
    rw [length_chunkArray l n]
    congr 1
  · refine ⟨?_, ?_, ?_⟩
    · unfold runBatches
      rw [hchunk]
      decide
    · unfold runBatches
      rw [hchunk]
      decide
    · unfold runBatches
      rw [hchunk]
      decide

/-- Witness for C5 at a concrete list and batch size. -/
theorem batch_partition_witness :
    (chunkArray [1, 2, 3] 2).flatten = [1, 2, 3] ∧
    (chunkArray [1, 2, 3] 2).length = ([1, 2, 3].length + 2 - 1) / 2 :=
  ⟨(batch_partition [1, 2, 3] 2 (by decide)).1.1,
   (batch_partition [1, 2, 3] 2 (by decide)).1.2.1⟩

/-! ## Claim C4 witness data -/

def emptyStore : Store := ⟨[], [], [], []⟩

/-- Witness for C4 at a concrete input and the empty (well-formed) store. -/
theorem pipeline_idempotent_witness :
    StoreWF emptyStore ∧
    runPipeline (runPipeline emptyStore [⟨"01", "Dinnerware"⟩]
        [⟨"34", "M", "1/2/2020", "3/4/2020"⟩] [exRow5 "S1"] 2)
      [⟨"01", "Dinnerware"⟩] [⟨"34", "M", "1/2/2020", "3/4/2020"⟩]
      [exRow5 "S1"] 2 =
      runPipeline emptyStore [⟨"01", "Dinnerware"⟩]
        [⟨"34", "M", "1/2/2020", "3/4/2020"⟩] [exRow5 "S1"] 2 :=
  ⟨by decide, pipeline_idempotent emptyStore _ _ _ 2 (by decide)⟩
